import Mathlib

/-!
Shallow embedding of `octodns/source/tinydns.py` (`TinyDnsBaseSource` and
`TinyDnsFileSource`), the TinyDNS zone-file importer.

Python strings are modelled as `List Char`; Python's heterogeneous TTL value
(a raw string field or the numeric configured default) is the sum type `Ttl`;
fallible code is modelled by pairing results with an `Option Err` (the error
that escaped, if any), so that state visible at the moment of an abort stays
observable.  The collaborators that live outside the given sources
(`octodns/zone.py`, `octodns/record.py`) are modelled from the spec; every
such definition is marked `Modelled from the spec:` in its doc comment.
-/

namespace TinyDns

/-- Convert a string literal into the character-list representation used for
Python strings throughout the embedding. -/
def chars (s : String) : List Char := s.toList

/-- Python `str.strip()` whitespace test (the ASCII whitespace characters;
`Char.ofNat 11` and `Char.ofNat 12` are vertical tab and form feed). -/
def pyIsSpace (c : Char) : Bool :=
  c == ' ' || c == '\t' || c == '\n' || c == '\r' || c == Char.ofNat 11 || c == Char.ofNat 12

/-- Python `str.strip()`: whitespace removed from both ends. -/
def pstrip (l : List Char) : List Char :=
  ((l.dropWhile pyIsSpace).reverse.dropWhile pyIsSpace).reverse

/-- Python `str.split(sep)` for a single-character separator: every occurrence
of the separator delimits a (possibly empty) field. -/
def splitChar (sep : Char) : List Char → List (List Char)
  | [] => [[]]
  | c :: rest =>
    if c = sep then [] :: splitChar sep rest
    else
      match splitChar sep rest with
      | [] => [[c]]
      | f :: fs => (c :: f) :: fs

/-- State machine for `re.split(r':+', s)`: `some acc` is "accumulating the
current field (reversed)", `none` is "inside a run of colons, further colons
extend the run". -/
def splitColsGo : Option (List Char) → List Char → List (List Char)
  | some acc, [] => [acc.reverse]
  | none, [] => [[]]
  | some acc, c :: rest =>
    if c = ':' then acc.reverse :: splitColsGo none rest
    else splitColsGo (some (c :: acc)) rest
  | none, c :: rest =>
    if c = ':' then splitColsGo none rest
    else splitColsGo (some [c]) rest

/-- `re.split` of the compiled class attribute `split_re = re.compile(r':+')`:
the fields between maximal runs of one-or-more colons (so `::` does not
produce an empty middle field, while a leading or trailing colon run still
yields an empty first or last field, as in Python). -/
def splitCols (s : List Char) : List (List Char) := splitColsGo (some []) s

/-- Python `str.endswith`. -/
def endsWithL (s suf : List Char) : Bool :=
  decide (suf.length ≤ s.length) && decide (s.drop (s.length - suf.length) = suf)

/-- The shared per-line preprocessing of both populate paths once the leading
type character has been removed: `line[1:].split('#', 1)[0]` (truncate at the
first `#`) followed by `[p.strip() for p in self.split_re.split(line)]`.
`splitCols` always returns at least one field, so the result is never the
empty list. -/
def parseFields (raw : List Char) : List (List Char) :=
  (splitCols (raw.takeWhile (fun c => c != '#'))).map pstrip

/-- The normalized record types the importer produces. -/
inductive RType
  | A
  | CNAME
  | MX
  | NS
  | PTR
deriving DecidableEq, Repr

/-- A TTL as the code stores it in the emitted data dict: either the raw
string of a positional TTL field, or the numeric `self.default_ttl` used when
the positional read raised `IndexError`. -/
inductive Ttl
  | fromField (s : List Char)
  | dflt (n : Nat)
deriving DecidableEq, Repr

/-- The value payload of an emitted data dict, one shape per record type. -/
inductive RVal
  | addrs (vs : List (List Char))
  | one (v : List Char)
  | mx (vs : List (List Char × List Char))
  | names (vs : List (List Char))
deriving DecidableEq, Repr

/-- The data dict built by a `_data_for_*` normalizer (sans the name, which
`Record.new` receives separately). -/
structure RecData where
  ttl : Ttl
  rtype : RType
  value : RVal
deriving DecidableEq, Repr

/-- A constructed record descriptor as handed to the zone sink. -/
structure PRecord where
  name : List Char
  rtype : RType
  ttl : Ttl
  value : RVal
deriving DecidableEq, Repr

/-- The zone sink's observable state: its fully-qualified name (trailing-dot
form), its delegated sub-zone names (zone-relative), and the records added so
far, in insertion order. -/
structure Zone where
  name : List Char
  subZones : List (List Char)
  records : List PRecord
deriving DecidableEq, Repr

/-- The exceptions that can escape from (or be handled inside) the populate
paths. `unboundLocal` is Python's `UnboundLocalError`, raised when a local
variable is read before any assignment to it has executed. -/
inductive Err
  | indexError
  | invalidAddress
  | duplicateRecord
  | subzoneRecord
  | unboundLocal
  | attributeError
deriving DecidableEq, Repr

/-- Outcome of handing a record to the zone sink. -/
inductive AddResult
  | ok (z : Zone)
  | duplicate
  | subzone
deriving DecidableEq, Repr

/-- Modelled from the spec: `Zone.add_record` lives in `octodns/zone.py`,
which is not among the given sources.  Per the spec the sink's add-record
operation accepts a descriptor and returns success or one of
`DuplicateRecord` (a record with the same name and type is already present)
or `SubzoneRecord` (the name belongs to a delegated subzone); success appends
the record. -/
def Zone.add_record (z : Zone) (r : PRecord) : AddResult :=
  if z.subZones.any (fun s => decide (r.name = s) || endsWithL r.name ('.' :: s)) then
    .subzone
  else if z.records.any (fun e => decide (e.name = r.name) && decide (e.rtype = r.rtype)) then
    .duplicate
  else
    .ok { z with records := z.records ++ [r] }

/-- Modelled from the spec: `Record.new` lives in `octodns/record.py`, which
is not among the given sources.  Per the spec it constructs the immutable
record descriptor from the zone-relative name and the data dict. -/
def Record.new (_z : Zone) (name : List Char) (d : RecData) : PRecord :=
  ⟨name, d.rtype, d.ttl, d.value⟩

/-- An IPv4 address as four octet values. -/
structure IPv4 where
  o1 : Nat
  o2 : Nat
  o3 : Nat
  o4 : Nat
deriving DecidableEq, Repr

/-- Decimal value of a digit string. -/
def digitsVal (l : List Char) : Nat :=
  l.foldl (fun acc c => acc * 10 + (c.toNat - 48)) 0

/-- One octet of a dotted-quad literal, per `ipaddress`: non-empty, at most
three ASCII digits, no leading zero, value at most 255. -/
def parseOctet (s : List Char) : Option Nat :=
  if s = [] then none
  else if 3 < s.length then none
  else if !(s.all Char.isDigit) then none
  else if 1 < s.length ∧ s.headD '0' = '0' then none
  else if digitsVal s ≤ 255 then some (digitsVal s) else none

/-- `ipaddress.ip_address` as the importer can ever invoke it.  The strings it
receives are fields produced by splitting the line on colons, so they can
never contain `:` and can therefore never be IPv6 literals; only the IPv4
dotted-quad grammar is modelled.  `none` models the `ValueError` the library
raises for an unparseable literal. -/
def ip_address (s : List Char) : Option IPv4 :=
  match splitChar '.' s with
  | [a, b, c, d] =>
    match parseOctet a, parseOctet b, parseOctet c, parseOctet d with
    | some x, some y, some z, some w => some ⟨x, y, z, w⟩
    | _, _, _, _ => none
  | _ => none

/-- Decimal rendering of a number, as `str` produces for an octet. -/
def natChars (n : Nat) : List Char := (Nat.repr n).toList

/-- `IPv4Address.reverse_pointer`: the octets of the canonical string form,
reversed, dotted, suffixed with `in-addr.arpa`. -/
def reverse_pointer (a : IPv4) : List Char :=
  natChars a.o4 ++ '.' :: natChars a.o3 ++ '.' :: natChars a.o2 ++ '.' :: natChars a.o1
    ++ chars ".in-addr.arpa"

/-- `str(addr)` for an `IPv4Address`: the dotted-quad form. -/
def ipStr (a : IPv4) : List Char :=
  natChars a.o1 ++ '.' :: natChars a.o2 ++ '.' :: natChars a.o3 ++ '.' :: natChars a.o4

/-- One character of the interpolated zone pattern against one character of
the subject.  `zone.name[:-1]` is pasted into the regular expression without
escaping, so each `.` of the zone name is the regex wildcard, matching any
character except a newline; every other character of a DNS zone name is a
regex literal and matches only itself. -/
def patCharMatch (p c : Char) : Bool :=
  if p = '.' then decide (c ≠ '\n') else decide (p = c)

/-- Position-by-position match of the whole pattern `Z` (the interpolated
`zone.name[:-1]`) against a string of the same length. -/
def wildEq : List Char → List Char → Bool
  | [], [] => true
  | p :: ps, c :: cs => patCharMatch p c && wildEq ps cs
  | _, _ => false

/-- No newline anywhere: the constraint `.+` puts on the captured name group
(the regex `.` does not match a newline). -/
def noNl (l : List Char) : Bool := l.all fun c => decide (c ≠ '\n')

/-- Python's `$` anchor also matches just before a newline that ends the
string, so a single trailing newline is discounted before the anchored
match. -/
def stripNl (s : List Char) : List Char :=
  if s.getLast? = some '\n' then s.dropLast else s

/-- Core of `re.match` for the forward-zone pattern
`((?P<name>.+)\.)?Z$` with `Z = zone.name[:-1]` pasted in unescaped.
`re.match` anchors at the start and `$` at the end, and `Z` consumes exactly
`Z.length` characters, so a successful match decomposes the subject uniquely:
either the whole subject is a position-wise match of `Z` (the optional group
absent), or the subject is longer by at least two, a literal `.` sits exactly
`Z.length + 1` characters before the end, the tail matches `Z` position-wise,
and the non-empty chunk before that dot (the `name` group, matched by `.+`)
contains no newline. -/
def acceptFCore (Z s : List Char) : Bool :=
  decide ((s.length = Z.length ∧ wildEq Z s = true) ∨
    (Z.length + 2 ≤ s.length ∧ s.getD (s.length - Z.length - 1) '\n' = '.' ∧
      wildEq Z (s.drop (s.length - Z.length)) = true ∧
      noNl (s.take (s.length - Z.length - 1)) = true))

/-- `name_re.match` of `_populate_normal` (the match is only tested for
truthiness there, so just acceptance is returned). -/
def reAccept (Z s : List Char) : Bool := acceptFCore Z (stripNl s)

/-- `name_re.match` of `_populate_in_addr_arpa`, for the pattern
`(?P<name>.+)\.Z$` with `Z = zone.name[:-1]` pasted in unescaped: the group
is mandatory here, and `match.group('name')` is read on success, so the
captured chunk before the forced dot boundary is returned. -/
def reMatchName (Z s₀ : List Char) : Option (List Char) :=
  let s := stripNl s₀
  if Z.length + 2 ≤ s.length ∧ s.getD (s.length - Z.length - 1) '\n' = '.' ∧
      wildEq Z (s.drop (s.length - Z.length)) = true ∧
      noNl (s.take (s.length - Z.length - 1)) = true then
    some (s.take (s.length - Z.length - 1))
  else none

/-- Modelled from the spec: `Zone.hostname_from_fqdn` lives in
`octodns/zone.py`, which is not among the given sources.  Per the spec the
zone-relative name is the record name with the owning zone's suffix removed;
positionally that is the fqdn with its last `len(zone.name)` characters
dropped (`zone.name` carries the trailing dot while the matched fqdn does
not, so the separating dot is dropped along with the suffix, and the zone
apex yields the empty label). -/
def hostname_from_fqdn (zoneName fqdn : List Char) : List Char :=
  fqdn.take (fqdn.length - zoneName.length)

/-- `try: ttl = <positional read> except IndexError: ttl = self.default_ttl`:
a present field keeps its raw string form, an absent one falls back to the
configured default. -/
def ttlFrom (dflt : Nat) : Option (List Char) → Ttl
  | some t => .fromField t
  | none => .dflt dflt

/-- The literal `'0.0.0.0'` sentinel of `_data_for_A`. -/
def sentinel : List Char := chars "0.0.0.0"

/-- The value-collecting loop of `_data_for_A`: `record[0]` raises
`IndexError` on an empty field-sequence (that read is outside any `try`);
a first field equal to the sentinel is not appended. -/
def aValues : List (List (List Char)) → Except Err (List (List Char))
  | [] => .ok []
  | record :: rest =>
    match record.head? with
    | none => .error .indexError
    | some v =>
      match aValues rest with
      | .error e => .error e
      | .ok vs => .ok (if v = sentinel then vs else v :: vs)

/-- `_data_for_A`: collect non-sentinel first fields; emit nothing when none
remain; TTL from `records[0][1]` with `IndexError` falling back to the
default. -/
def data_for_A (dflt : Nat) (t : RType) (records : List (List (List Char))) :
    Except Err (Option RecData) :=
  match aValues records with
  | .error e => .error e
  | .ok values =>
    if values = [] then .ok none
    else .ok (some ⟨ttlFrom dflt ((records.head?).bind fun r => r.get? 1), t, .addrs values⟩)

/-- `_data_for_CNAME`: `first = records[0]` and the later `first[0]` are
outside the `try`, so an empty group or an empty first field-sequence raises
`IndexError`; only `first[1]` is guarded. -/
def data_for_CNAME (dflt : Nat) (t : RType) (records : List (List (List Char))) :
    Except Err (Option RecData) :=
  match records.head? with
  | none => .error .indexError
  | some first =>
    match first.head? with
    | none => .error .indexError
    | some v => .ok (some ⟨ttlFrom dflt (first.get? 1), t, .one (v ++ chars ".")⟩)

/-- The list comprehension of `_data_for_MX`: `r[1]` and `r[0]` raise
`IndexError` on a field-sequence that is too short. -/
def mxValues : List (List (List Char)) → Except Err (List (List Char × List Char))
  | [] => .ok []
  | r :: rest =>
    match r.get? 1, r.head? with
    | some p, some v =>
      match mxValues rest with
      | .error e => .error e
      | .ok vs => .ok ((p, v ++ chars ".") :: vs)
    | _, _ => .error .indexError

/-- `_data_for_MX`: TTL from `records[0][2]` with `IndexError` falling back
to the default; one `{priority, value}` entry per contributing line, in
order, the value with a trailing dot appended. -/
def data_for_MX (dflt : Nat) (t : RType) (records : List (List (List Char))) :
    Except Err (Option RecData) :=
  match mxValues records with
  | .error e => .error e
  | .ok values =>
    .ok (some ⟨ttlFrom dflt ((records.head?).bind fun r => r.get? 2), t, .mx values⟩)

/-- The list comprehension of `_data_for_NS`: `r[0]` raises `IndexError` on
an empty field-sequence. -/
def nsValues : List (List (List Char)) → Except Err (List (List Char))
  | [] => .ok []
  | r :: rest =>
    match r.head? with
    | none => .error .indexError
    | some v =>
      match nsValues rest with
      | .error e => .error e
      | .ok vs => .ok ((v ++ chars ".") :: vs)

/-- `_data_for_NS`: TTL from `records[0][1]` with `IndexError` falling back
to the default; one dotted value per contributing line, in order. -/
def data_for_NS (dflt : Nat) (t : RType) (records : List (List (List Char))) :
    Except Err (Option RecData) :=
  match nsValues records with
  | .error e => .error e
  | .ok values =>
    .ok (some ⟨ttlFrom dflt ((records.head?).bind fun r => r.get? 1), t, .names values⟩)

/-- The `getattr(self, '_data_for_{}'.format(_type))` dispatch.  There is no
`_data_for_PTR` method, so reaching the PTR arm would raise
`AttributeError`; the forward type map never produces PTR, so the arm is
unreachable in fact. -/
def data_for (dflt : Nat) : RType → List (List (List Char)) → Except Err (Option RecData)
  | .A => data_for_A dflt .A
  | .CNAME => data_for_CNAME dflt .CNAME
  | .MX => data_for_MX dflt .MX
  | .NS => data_for_NS dflt .NS
  | .PTR => fun _ => .error .attributeError

/-- The `type_map` of `_populate_normal`: `some (some t)` is a tag mapped to
a normalized type, `some none` is `'^'` (recognized, explicitly ignored),
`none` is an unrecognized leading character. -/
def type_map (c : Char) : Option (Option RType) :=
  if c = '=' then some (some .A)
  else if c = '^' then some none
  else if c = '.' then some (some .NS)
  else if c = 'C' then some (some .CNAME)
  else if c = '+' then some (some .A)
  else if c = '@' then some (some .MX)
  else none

/-- A group of raw field-sequences for one (name, type) key. -/
abbrev Group := List (List (List Char))

/-- The `defaultdict(lambda: defaultdict(list))` aggregation, as nested
association lists in insertion order (Python dicts iterate in insertion
order). -/
abbrev Agg := List (List Char × List (RType × Group))

/-- Insertion into the inner per-name dict: append to an existing type's
list, or append a new type key. -/
def tInsert (ts : List (RType × Group)) (t : RType) (fs : List (List Char)) :
    List (RType × Group) :=
  match ts with
  | [] => [(t, [fs])]
  | (u, g) :: rest =>
    if u = t then (u, g ++ [fs]) :: rest else (u, g) :: tInsert rest t fs

/-- Insertion into the outer dict: `data[name][_type].append(line[1:])`. -/
def aggInsert (agg : Agg) (n : List Char) (t : RType) (fs : List (List Char)) : Agg :=
  match agg with
  | [] => [(n, [(t, [fs])])]
  | (m, ts) :: rest =>
    if m = n then (m, tInsert ts t fs) :: rest else (m, ts) :: aggInsert rest n t fs

/-- One line of the first pass of `_populate_normal`: classify by leading
character (`line[0]` raises `IndexError` on an empty string), skip
unrecognized and `'^'` lines, split the remainder into fields, test
`name_re.match(line[0])`, and on a match insert the remaining fields under
`(zone.hostname_from_fqdn(line[0]), type)`.  `parseFields` never yields an
empty list, so the `headD` default is never consulted. -/
def stepF (z : Zone) (agg : Agg) (line : List Char) : Agg × Option Err :=
  match line with
  | [] => (agg, some .indexError)
  | c :: raw =>
    match type_map c with
    | none => (agg, none)
    | some none => (agg, none)
    | some (some t) =>
      let fields := parseFields raw
      let f0 := fields.headD []
      if reAccept z.name.dropLast f0 then
        (aggInsert agg (hostname_from_fqdn z.name f0) t fields.tail, none)
      else (agg, none)

/-- The first pass of `_populate_normal` over all lines; a raised error
aborts the pass. -/
def buildAgg (z : Zone) (agg : Agg) : List (List Char) → Agg × Option Err
  | [] => (agg, none)
  | l :: rest =>
    match stepF z agg l with
    | (agg', none) => buildAgg z agg' rest
    | (agg', some e) => (agg', some e)

/-- The inner loop of the second pass of `_populate_normal` for one name:
normalize each type's group, skip falsy data, hand the record to the sink;
only `SubzoneRecordException` is caught (logged at debug level and skipped),
any other rejection propagates. -/
def emitGroup (dflt : Nat) (z : Zone) (n : List Char) :
    List (RType × Group) → Zone × Option Err
  | [] => (z, none)
  | (t, g) :: rest =>
    match data_for dflt t g with
    | .error e => (z, some e)
    | .ok none => emitGroup dflt z n rest
    | .ok (some d) =>
      match z.add_record (Record.new z n d) with
      | .ok z' => emitGroup dflt z' n rest
      | .subzone => emitGroup dflt z n rest
      | .duplicate => (z, some .duplicateRecord)

/-- The outer loop of the second pass of `_populate_normal`. -/
def emitAll (dflt : Nat) (z : Zone) : Agg → Zone × Option Err
  | [] => (z, none)
  | (n, ts) :: rest =>
    match emitGroup dflt z n ts with
    | (z', none) => emitAll dflt z' rest
    | (z', some e) => (z', some e)

/-- `_populate_normal`: classify and aggregate, then normalize and emit. -/
def populate_normal (dflt : Nat) (z : Zone) (lines : List (List Char)) :
    Zone × Option Err :=
  match buildAgg z [] lines with
  | (agg, none) => emitAll dflt z agg
  | (_, some e) => (z, some e)

/-- The local state of `_populate_in_addr_arpa`'s loop: the zone sink, the
Python local variable `addr` (`none` while no assignment to it has executed,
so that reading it raises `UnboundLocalError`), and the warnings logged so
far. -/
structure RSt where
  zone : Zone
  addr : Option IPv4
  log : List (List Char)
deriving DecidableEq, Repr

/-- The warning text `'Duplicate PTR record for {}, skipping'.format(addr)`. -/
def dupMsg (a : IPv4) : List Char :=
  chars "Duplicate PTR record for " ++ ipStr a ++ chars ", skipping"

/-- The tail of one reverse-mode iteration, from `if match:` on: read the TTL
from `line[2]` with `IndexError` falling back to the default, build the PTR
record from the captured name, and hand it to the sink.  Only
`DuplicateRecordException` is caught; its handler interpolates the loop
variable `addr`, which raises `UnboundLocalError` when no earlier iteration
has assigned it. -/
def arpaEmit (dflt : Nat) (st : RSt) (fields : List (List Char))
    (m : Option (List Char)) (value : List Char) : RSt × Option Err :=
  match m with
  | none => (st, none)
  | some n =>
    match st.zone.add_record (Record.new st.zone n ⟨ttlFrom dflt (fields.get? 2), .PTR, .one value⟩) with
    | .ok z' => ({ st with zone := z' }, none)
    | .subzone => (st, some .subzoneRecord)
    | .duplicate =>
      match st.addr with
      | none => (st, some .unboundLocal)
      | some a => ({ st with log := st.log ++ [dupMsg a] }, none)

/-- One line of `_populate_in_addr_arpa`: only `'='` and `'^'` lines are
considered; a first field already in `in-addr.arpa` form is matched directly
and the value is `line[1]` with a dot appended (`line[1]` is read before the
match is tested, so its `IndexError` fires even for non-matching lines);
otherwise `line[1]` is parsed as an address (assigning `addr`), its reverse
pointer is matched, and the value is `line[0]` with a dot appended. -/
def arpaStep (dflt : Nat) (st : RSt) (line : List Char) : RSt × Option Err :=
  match line with
  | [] => (st, some .indexError)
  | c :: raw =>
    if c = '=' ∨ c = '^' then
      let fields := parseFields raw
      let f0 := fields.headD []
      if endsWithL f0 (chars "in-addr.arpa") then
        match fields.get? 1 with
        | none => (st, some .indexError)
        | some f1 =>
          arpaEmit dflt st fields (reMatchName st.zone.name.dropLast f0) (f1 ++ chars ".")
      else
        match fields.get? 1 with
        | none => (st, some .indexError)
        | some f1 =>
          match ip_address f1 with
          | none => (st, some .invalidAddress)
          | some a =>
            arpaEmit dflt { st with addr := some a } fields
              (reMatchName st.zone.name.dropLast (reverse_pointer a)) (f0 ++ chars ".")
    else (st, none)

/-- The loop of `_populate_in_addr_arpa`; a raised error aborts it. -/
def arpaGo (dflt : Nat) (st : RSt) : List (List Char) → RSt × Option Err
  | [] => (st, none)
  | l :: rest =>
    match arpaStep dflt st l with
    | (st', none) => arpaGo dflt st' rest
    | (st', some e) => (st', some e)

/-- `_populate_in_addr_arpa`: the loop started with `addr` unbound and the
log empty. -/
def populate_in_addr_arpa (dflt : Nat) (z : Zone) (lines : List (List Char)) :
    RSt × Option Err :=
  arpaGo dflt ⟨z, none, []⟩ lines

/-- `populate`: reverse processing when the zone's name ends with
`in-addr.arpa.`, forward processing otherwise. -/
def populate (dflt : Nat) (z : Zone) (lines : List (List Char)) : Zone × Option Err :=
  if endsWithL z.name (chars "in-addr.arpa.") then
    let r := populate_in_addr_arpa dflt z lines
    (r.1.zone, r.2)
  else populate_normal dflt z lines

/-- `TinyDnsFileSource._lines` on a cache miss: each file's text split on
newlines, concatenated, empty lines filtered out. -/
def linesOf (files : List (List Char)) : List (List Char) :=
  (files.map (splitChar '\n')).flatten.filter (fun l => decide (l ≠ []))

/-- The `self._cache` holding `_lines`' one-shot memoized result. -/
structure SrcSt where
  cache : Option (List (List Char))
deriving DecidableEq, Repr

/-- `TinyDnsFileSource._lines`: return the cache when present, otherwise read
and cache the line sequence. -/
def sourceLines (files : List (List Char)) (st : SrcSt) : List (List Char) × SrcSt :=
  match st.cache with
  | some c => (c, st)
  | none => (linesOf files, ⟨some (linesOf files)⟩)

/-- A full `populate` call of the file source: acquire the lines through the
cache, then run the populate pass against the given zone sink. -/
def populateCall (dflt : Nat) (files : List (List Char)) (z : Zone) (st : SrcSt) :
    (Zone × Option Err) × SrcSt :=
  let p := sourceLines files st
  (populate dflt z p.1, p.2)

/-! ## Helper lemmas -/

theorem wildEq_length : ∀ {Z t : List Char}, wildEq Z t = true → t.length = Z.length
  | [], [], _ => rfl
  | _ :: _, [], h => by simp [wildEq] at h
  | [], _ :: _, h => by simp [wildEq] at h
  | p :: ps, c :: cs, h => by
    simp only [wildEq, Bool.and_eq_true] at h
    simp [wildEq_length h.2]

theorem aValues_ok_eq {rs : List (List (List Char))} {vs : List (List Char)}
    (h : aValues rs = .ok vs) :
    vs = (rs.filterMap List.head?).filter (fun v => decide (v ≠ sentinel)) := by
  induction rs generalizing vs with
  | nil =>
    simp only [aValues, Except.ok.injEq] at h
    simp [← h]
  | cons r rest ih =>
    simp only [aValues] at h
    split at h
    · cases h
    next v hr =>
      split at h
      · cases h
      next vs' hrec =>
        have h2 := Except.ok.inj h
        subst h2
        rw [List.filterMap_cons_some hr]
        by_cases hs : v = sentinel <;>
          simp [hs, List.filter_cons, ih hrec]

theorem aValues_all_sentinel {rs : List (List (List Char))}
    (h : ∀ r ∈ rs, r.head? = some sentinel) : aValues rs = .ok [] := by
  induction rs with
  | nil => rfl
  | cons r rest ih =>
    have hr := h r (by simp)
    have hrest := ih (fun x hx => h x (by simp [hx]))
    simp [aValues, hr, hrest]

theorem data_for_A_ttl {dflt : Nat} {t : RType} {rs : List (List (List Char))} {d : RecData}
    (h : data_for_A dflt t rs = .ok (some d)) :
    d.ttl = ttlFrom dflt ((rs.head?).bind fun r => r.get? 1) := by
  unfold data_for_A at h
  split at h
  · cases h
  · split at h
    · exact Option.noConfusion (Except.ok.inj h)
    · have h2 := Option.some.inj (Except.ok.inj h)
      subst h2
      rfl

theorem data_for_CNAME_ttl {dflt : Nat} {t : RType} {rs : List (List (List Char))} {d : RecData}
    (h : data_for_CNAME dflt t rs = .ok (some d)) :
    d.ttl = ttlFrom dflt ((rs.head?).bind fun r => r.get? 1) := by
  unfold data_for_CNAME at h
  split at h
  · cases h
  next first h0 =>
    split at h
    · cases h
    · have h2 := Option.some.inj (Except.ok.inj h)
      subst h2
      show ttlFrom dflt (first.get? 1) = _
      rw [h0]
      rfl

theorem data_for_NS_ttl {dflt : Nat} {t : RType} {rs : List (List (List Char))} {d : RecData}
    (h : data_for_NS dflt t rs = .ok (some d)) :
    d.ttl = ttlFrom dflt ((rs.head?).bind fun r => r.get? 1) := by
  unfold data_for_NS at h
  split at h
  · cases h
  · have h2 := Option.some.inj (Except.ok.inj h)
    subst h2
    rfl

theorem data_for_MX_ttl {dflt : Nat} {t : RType} {rs : List (List (List Char))} {d : RecData}
    (h : data_for_MX dflt t rs = .ok (some d)) :
    d.ttl = ttlFrom dflt ((rs.head?).bind fun r => r.get? 2) := by
  unfold data_for_MX at h
  split at h
  · cases h
  · have h2 := Option.some.inj (Except.ok.inj h)
    subst h2
    rfl

theorem mxValues_ok_eq {rs : List (List (List Char))} {vs : List (List Char × List Char)}
    (h : mxValues rs = .ok vs) :
    vs = rs.map (fun r => ((r.get? 1).getD [], (r.head?).getD [] ++ chars ".")) := by
  induction rs generalizing vs with
  | nil =>
    simp only [mxValues, Except.ok.injEq] at h
    simp [← h]
  | cons r rest ih =>
    simp only [mxValues] at h
    split at h
    next p v hp hv =>
      split at h
      · cases h
      next vs' hrec =>
        have h2 := Except.ok.inj h
        subst h2
        rw [List.map_cons, hp, hv, ih hrec]
        rfl
    next hnot => cases h

/-! ## Claim theorems -/

/-- C4: in `_data_for_A`, a field-sequence whose first field is the literal
`0.0.0.0` sentinel contributes no value (the emitted values are exactly the
non-sentinel first fields, in order), and a group in which every
field-sequence starts with the sentinel emits no record at all. -/
theorem C4_sentinel_filter (dflt : Nat) (t : RType) (records : List (List (List Char))) :
    ((∀ r ∈ records, r.head? = some sentinel) → data_for_A dflt t records = .ok none)
    ∧ (∀ d : RecData, data_for_A dflt t records = .ok (some d) →
        d.value = .addrs ((records.filterMap List.head?).filter fun v => decide (v ≠ sentinel))) := by
  constructor
  · intro h
    unfold data_for_A
    rw [aValues_all_sentinel h]
    rfl
  · intro d h
    unfold data_for_A at h
    split at h
    · cases h
    next values hv =>
      split at h
      · exact Option.noConfusion (Except.ok.inj h)
      · have h2 := Option.some.inj (Except.ok.inj h)
        subst h2
        show RVal.addrs values = _
        rw [aValues_ok_eq hv]

/-- Witness for C4 at a concrete input: a group whose single field-sequence
starts with the sentinel emits nothing. -/
theorem C4_sentinel_filter_wit : data_for_A 3600 .A [[sentinel]] = .ok none :=
  (C4_sentinel_filter 3600 .A [[sentinel]]).1 (by decide)

/-- C5: every forward normalizer takes the emitted record's TTL from the
first contributing line's TTL field when present (`records[0][1]` for A,
CNAME and NS, `records[0][2]` for MX) and from the configured default
otherwise; the record carries this single TTL for all its values, regardless
of later lines' TTL fields. -/
theorem C5_group_ttl (dflt : Nat) (records : List (List (List Char))) (d : RecData) :
    (data_for_A dflt .A records = .ok (some d) →
      d.ttl = ttlFrom dflt ((records.head?).bind fun r => r.get? 1))
    ∧ (data_for_CNAME dflt .CNAME records = .ok (some d) →
      d.ttl = ttlFrom dflt ((records.head?).bind fun r => r.get? 1))
    ∧ (data_for_NS dflt .NS records = .ok (some d) →
      d.ttl = ttlFrom dflt ((records.head?).bind fun r => r.get? 1))
    ∧ (data_for_MX dflt .MX records = .ok (some d) →
      d.ttl = ttlFrom dflt ((records.head?).bind fun r => r.get? 2)) :=
  ⟨fun h => data_for_A_ttl h, fun h => data_for_CNAME_ttl h,
   fun h => data_for_NS_ttl h, fun h => data_for_MX_ttl h⟩

/-- Witness for C5 at a concrete input: a one-line A group with a TTL field
keeps that field as the record's TTL. -/
theorem C5_group_ttl_wit :
    (RecData.mk (Ttl.fromField (chars "300")) RType.A (RVal.addrs [chars "1.2.3.4"])).ttl
      = ttlFrom 3600 ((([[chars "1.2.3.4", chars "300"]] :
          List (List (List Char))).head?).bind fun r => r.get? 1) :=
  (C5_group_ttl 3600 [[chars "1.2.3.4", chars "300"]]
    ⟨Ttl.fromField (chars "300"), RType.A, RVal.addrs [chars "1.2.3.4"]⟩).1 rfl

/-- C6: an emitted MX record carries exactly one `{priority, value}` entry
per contributing line, in the original line order, the priority being the
line's second field and the value the line's first field with a trailing dot
appended. -/
theorem C6_mx_entries (dflt : Nat) (records : List (List (List Char))) (d : RecData)
    (h : data_for_MX dflt .MX records = .ok (some d)) :
    d.value = .mx (records.map fun r => ((r.get? 1).getD [], (r.head?).getD [] ++ chars "."))
    ∧ (records.map fun r =>
        ((r.get? 1).getD [], (r.head?).getD [] ++ chars ".")).length = records.length := by
  refine ⟨?_, by simp⟩
  unfold data_for_MX at h
  cases hv : mxValues records with
  | error e => rw [hv] at h; cases h
  | ok values =>
    rw [hv] at h
    have h2 := Option.some.inj (Except.ok.inj h)
    subst h2
    show RVal.mx values = _
    rw [mxValues_ok_eq hv]

/-- Witness for C6 at a concrete input: a two-line MX group emits two entries
in order, dotted, with the group TTL from the first line (absent, so the
default). -/
theorem C6_mx_entries_wit :
    (RecData.mk (Ttl.dflt 3600) RType.MX
        (RVal.mx [(chars "10", chars "mx1.example.com."),
                  (chars "20", chars "mx2.example.com.")])).value
      = .mx (([[chars "mx1.example.com", chars "10"],
               [chars "mx2.example.com", chars "20", chars "300"]] :
              List (List (List Char))).map fun r =>
                ((r.get? 1).getD [], (r.head?).getD [] ++ chars "."))
    ∧ (([[chars "mx1.example.com", chars "10"],
         [chars "mx2.example.com", chars "20", chars "300"]] :
        List (List (List Char))).map fun r =>
          ((r.get? 1).getD [], (r.head?).getD [] ++ chars ".")).length
      = ([[chars "mx1.example.com", chars "10"],
          [chars "mx2.example.com", chars "20", chars "300"]] :
         List (List (List Char))).length :=
  C6_mx_entries 3600
    [[chars "mx1.example.com", chars "10"],
     [chars "mx2.example.com", chars "20", chars "300"]]
    ⟨Ttl.dflt 3600, RType.MX,
      RVal.mx [(chars "10", chars "mx1.example.com."),
               (chars "20", chars "mx2.example.com.")]⟩ rfl

/-- C7: an empty line never reaches the populate loops (the raw-line source
filters empty lines out of the file contents), and a nonempty line whose
first character is not a recognized type tag for the current mode (forward
mode recognizes `=`, `+`, `C`, `.`, `@`, `^`; reverse mode only `=` and `^`)
is skipped by that mode's pass: the run over the remaining lines is exactly
the run without the line, so no record is produced and no error raised. -/
theorem C7_unrecognized_skip :
    (∀ (files : List (List Char)) (l : List Char), l ∈ linesOf files → l ≠ [])
    ∧ (∀ (z : Zone) (agg : Agg) (c : Char) (raw : List Char) (rest : List (List Char)),
        c ∉ ['=', '+', 'C', '.', '@', '^'] →
        buildAgg z agg ((c :: raw) :: rest) = buildAgg z agg rest)
    ∧ (∀ (dflt : Nat) (st : RSt) (c : Char) (raw : List Char) (rest : List (List Char)),
        c ∉ ['=', '^'] → arpaGo dflt st ((c :: raw) :: rest) = arpaGo dflt st rest) := by
  refine ⟨?_, ?_, ?_⟩
  · intro files l hl
    have h := (List.mem_filter.mp hl).2
    exact of_decide_eq_true h
  · intro z agg c raw rest hc
    simp only [List.mem_cons, List.not_mem_nil, or_false, not_or] at hc
    obtain ⟨h1, h2, h3, h4, h5, h6⟩ := hc
    have ht : type_map c = none := by
      simp [type_map, h1, h2, h3, h4, h5, h6]
    simp [buildAgg, stepF, ht]
  · intro dflt st c raw rest hc
    simp only [List.mem_cons, List.not_mem_nil, or_false, not_or] at hc
    have hor : ¬(c = '=' ∨ c = '^') := by
      intro h
      rcases h with h | h
      · exact hc.1 h
      · exact hc.2 h
    simp [arpaGo, arpaStep, hor]

/-- Witness for C7 at concrete inputs: a `Z` line is skipped by the forward
pass and a `+` line by the reverse pass. -/
theorem C7_unrecognized_skip_wit :
    buildAgg ⟨chars "example.com.", [], []⟩ [] [('Z' :: chars "foo")]
        = buildAgg ⟨chars "example.com.", [], []⟩ [] []
    ∧ arpaGo 3600 ⟨⟨chars "3.2.1.in-addr.arpa.", [], []⟩, none, []⟩
        [('+' :: chars "a.example.com:1.2.3.4")]
      = arpaGo 3600 ⟨⟨chars "3.2.1.in-addr.arpa.", [], []⟩, none, []⟩ [] :=
  ⟨C7_unrecognized_skip.2.1 ⟨chars "example.com.", [], []⟩ [] 'Z' (chars "foo") []
      (by decide),
   C7_unrecognized_skip.2.2 3600 ⟨⟨chars "3.2.1.in-addr.arpa.", [], []⟩, none, []⟩ '+'
      (chars "a.example.com:1.2.3.4") [] (by decide)⟩

/-- C8: a reverse-mode `=` or `^` line whose first field is not already in
`in-addr.arpa` form and whose second field fails address parsing aborts the
whole reverse loop with the address-parse failure: nothing is caught,
logged, or skipped (the state, including the log, is unchanged) and the
remaining lines are not processed. -/
theorem C8_parse_failure_fatal (dflt : Nat) (st : RSt) (c : Char) (raw : List Char)
    (rest : List (List Char)) (f1 : List Char)
    (hc : c = '=' ∨ c = '^')
    (h0 : endsWithL ((parseFields raw).headD []) (chars "in-addr.arpa") = false)
    (h1 : (parseFields raw).get? 1 = some f1)
    (h2 : ip_address f1 = none) :
    arpaGo dflt st ((c :: raw) :: rest) = (st, some .invalidAddress) := by
  have hs : arpaStep dflt st (c :: raw) = (st, some .invalidAddress) := by
    simp only [List.headD_eq_head?_getD] at h0
    simp only [List.get?_eq_getElem?] at h1
    simp [arpaStep, hc, h0, h1, h2]
  simp [arpaGo, hs]

/-- Witness for C8 at a concrete input: `=host:notanip` in a reverse zone
aborts with the address-parse failure. -/
theorem C8_parse_failure_fatal_wit :
    arpaGo 3600 ⟨⟨chars "3.2.1.in-addr.arpa.", [], []⟩, none, []⟩
        [('=' :: chars "host:notanip")]
      = (⟨⟨chars "3.2.1.in-addr.arpa.", [], []⟩, none, []⟩, some .invalidAddress) :=
  C8_parse_failure_fatal 3600 ⟨⟨chars "3.2.1.in-addr.arpa.", [], []⟩, none, []⟩ '='
    (chars "host:notanip") [] (chars "notanip") (Or.inl rfl) rfl rfl rfl

/-- C9: a full populate call through the caching line source, re-run against
the same fresh zone sink, returns the identical outcome (same records with
the same names, types, TTLs and value orderings, and the same error if any)
and leaves the cache exactly as the first call did. -/
theorem C9_rerun_identical (dflt : Nat) (files : List (List Char)) (z : Zone) :
    populateCall dflt files z ((populateCall dflt files z ⟨none⟩).2)
      = populateCall dflt files z ⟨none⟩ := rfl

/-- C1 (the code at the failing input): in reverse mode, the second of two
identical lines already in `in-addr.arpa` form is rejected as a duplicate,
and the handler's warning interpolates the loop-local `addr`, which no
iteration has assigned (the `in-addr.arpa` branch never assigns it); the
handler therefore raises `UnboundLocalError` and the populate call aborts
instead of logging and continuing. -/
theorem C1_duplicate_unbound_addr :
    populate 3600 ⟨chars "3.2.1.in-addr.arpa.", [], []⟩
      [chars "=4.3.2.1.in-addr.arpa:host.example.com",
       chars "=4.3.2.1.in-addr.arpa:host.example.com"]
      = (⟨chars "3.2.1.in-addr.arpa.", [],
          [⟨chars "4", .PTR, .dflt 3600, .one (chars "host.example.com.")⟩]⟩,
         some .unboundLocal) := rfl

/-- C2 (counterexample): a forward A line whose group's only field-sequence
is empty is not saved by any fallback - `=example.com` for zone
`example.com.` survives classification and name matching but normalization
raises an uncaught `IndexError`, aborting populate with no record. -/
theorem C2_missing_value_cex :
    populate 3600 ⟨chars "example.com.", [], []⟩ [chars "=example.com"]
      = (⟨chars "example.com.", [], []⟩, some .indexError) := rfl

/-- C2 (amended): the `IndexError` fallback covers only the TTL positional
read - a group whose first line lacks its TTL field falls back to the
configured default without error (shown generally for A groups, and
concretely for a two-field reverse line) - while missing value fields are
fatal: an A group whose first field-sequence is empty, and a reverse `=`/`^`
line with a single field, raise an uncaught `IndexError`. -/
theorem C2_ttl_fallback_only (dflt : Nat) (records : List (List (List Char))) (d : RecData) :
    (data_for_A dflt .A records = .ok (some d) →
        (records.head?).bind (fun r => r.get? 1) = none → d.ttl = .dflt dflt)
    ∧ arpaStep 3600 ⟨⟨chars "3.2.1.in-addr.arpa.", [], []⟩, none, []⟩
        (chars "=host.example.com:1.2.3.4")
      = (⟨⟨chars "3.2.1.in-addr.arpa.", [],
            [⟨chars "4", .PTR, .dflt 3600, .one (chars "host.example.com.")⟩]⟩,
          some ⟨1, 2, 3, 4⟩, []⟩, none)
    ∧ data_for_A 3600 .A [[]] = .error .indexError
    ∧ arpaStep 3600 ⟨⟨chars "3.2.1.in-addr.arpa.", [], []⟩, none, []⟩
        (chars "=host.example.com")
      = (⟨⟨chars "3.2.1.in-addr.arpa.", [], []⟩, none, []⟩, some .indexError) := by
  refine ⟨?_, rfl, rfl, rfl⟩
  intro h hn
  rw [data_for_A_ttl h, hn]
  rfl

/-- Witness for C2 at a concrete input: a one-field A line uses the default
TTL without error. -/
theorem C2_ttl_fallback_only_wit :
    (RecData.mk (Ttl.dflt 3600) RType.A (RVal.addrs [chars "1.2.3.4"])).ttl
      = Ttl.dflt 3600 :=
  (C2_ttl_fallback_only 3600 [[chars "1.2.3.4"]]
    ⟨Ttl.dflt 3600, RType.A, RVal.addrs [chars "1.2.3.4"]⟩).1 rfl rfl

theorem add_record_ok_records {z z' : Zone} {r : PRecord}
    (h : z.add_record r = .ok z') : z'.records = z.records ++ [r] := by
  unfold Zone.add_record at h
  split at h
  · cases h
  · split at h
    · cases h
    · have h2 := AddResult.ok.inj h
      subst h2
      rfl

theorem emitGroup_grows (dflt : Nat) (n : List Char) :
    ∀ (ts : List (RType × Group)) (z : Zone),
      ∃ tl, ((emitGroup dflt z n ts).1).records = z.records ++ tl := by
  intro ts
  induction ts with
  | nil => intro z; exact ⟨[], by simp [emitGroup]⟩
  | cons tg rest ih =>
    intro z
    obtain ⟨t, g⟩ := tg
    cases hd : data_for dflt t g with
    | error e => exact ⟨[], by simp [emitGroup, hd]⟩
    | ok od =>
      cases od with
      | none =>
        obtain ⟨tl, htl⟩ := ih z
        exact ⟨tl, by simp [emitGroup, hd, htl]⟩
      | some d =>
        cases ha : z.add_record (Record.new z n d) with
        | ok z' =>
          obtain ⟨tl, htl⟩ := ih z'
          refine ⟨Record.new z n d :: tl, ?_⟩
          have hrec := add_record_ok_records ha
          simp [emitGroup, hd, ha, htl, hrec]
        | duplicate => exact ⟨[], by simp [emitGroup, hd, ha]⟩
        | subzone =>
          obtain ⟨tl, htl⟩ := ih z
          exact ⟨tl, by simp [emitGroup, hd, ha, htl]⟩

theorem emitAll_grows (dflt : Nat) :
    ∀ (agg : Agg) (z : Zone),
      ∃ tl, ((emitAll dflt z agg).1).records = z.records ++ tl := by
  intro agg
  induction agg with
  | nil => intro z; exact ⟨[], by simp [emitAll]⟩
  | cons nts rest ih =>
    intro z
    obtain ⟨n, ts⟩ := nts
    obtain ⟨tl1, h1⟩ := emitGroup_grows dflt n ts z
    cases hg : emitGroup dflt z n ts with
    | mk z' eo =>
      simp only [hg] at h1
      cases eo with
      | none =>
        obtain ⟨tl2, h2⟩ := ih z'
        exact ⟨tl1 ++ tl2, by simp [emitAll, hg, h2, h1]⟩
      | some e =>
        exact ⟨tl1, by simp [emitAll, hg, h1]⟩

theorem arpaEmit_grows (dflt : Nat) (st : RSt) (fields : List (List Char))
    (m : Option (List Char)) (value : List Char) :
    ∃ tl, (((arpaEmit dflt st fields m value).1).zone).records = st.zone.records ++ tl := by
  cases m with
  | none => exact ⟨[], by simp [arpaEmit]⟩
  | some n =>
    cases ha : st.zone.add_record
        (Record.new st.zone n ⟨ttlFrom dflt (fields.get? 2), .PTR, .one value⟩) with
    | ok z' =>
      refine ⟨[Record.new st.zone n ⟨ttlFrom dflt (fields.get? 2), .PTR, .one value⟩], ?_⟩
      have hrec := add_record_ok_records ha
      simp only [List.get?_eq_getElem?] at ha
      simp [arpaEmit, ha, hrec]
    | duplicate =>
      have ha' := ha
      simp only [List.get?_eq_getElem?] at ha'
      cases hA : st.addr with
      | none => exact ⟨[], by simp [arpaEmit, ha', hA]⟩
      | some a => exact ⟨[], by simp [arpaEmit, ha', hA]⟩
    | subzone =>
      have ha' := ha
      simp only [List.get?_eq_getElem?] at ha'
      exact ⟨[], by simp [arpaEmit, ha']⟩

theorem arpaStep_grows (dflt : Nat) (st : RSt) (l : List Char) :
    ∃ tl, (((arpaStep dflt st l).1).zone).records = st.zone.records ++ tl := by
  cases l with
  | nil => exact ⟨[], by simp [arpaStep]⟩
  | cons c raw =>
    simp only [arpaStep]
    split
    · split
      · split
        · exact ⟨[], by simp⟩
        · exact arpaEmit_grows dflt st (parseFields raw) _ _
      · split
        · exact ⟨[], by simp⟩
        · split
          · exact ⟨[], by simp⟩
          next a ha => exact arpaEmit_grows dflt _ (parseFields raw) _ _
    · exact ⟨[], by simp⟩

theorem arpaGo_grows (dflt : Nat) :
    ∀ (lines : List (List Char)) (st : RSt),
      ∃ tl, (((arpaGo dflt st lines).1).zone).records = st.zone.records ++ tl := by
  intro lines
  induction lines with
  | nil => intro st; exact ⟨[], by simp [arpaGo]⟩
  | cons l rest ih =>
    intro st
    obtain ⟨tl1, h1⟩ := arpaStep_grows dflt st l
    cases hs : arpaStep dflt st l with
    | mk st' eo =>
      simp only [hs] at h1
      cases eo with
      | none =>
        obtain ⟨tl2, h2⟩ := ih st'
        exact ⟨tl1 ++ tl2, by simp [arpaGo, hs, h2, h1]⟩
      | some e =>
        exact ⟨tl1, by simp [arpaGo, hs, h1]⟩

theorem populate_normal_grows (dflt : Nat) (z : Zone) (lines : List (List Char)) :
    ∃ tl, ((populate_normal dflt z lines).1).records = z.records ++ tl := by
  cases hb : buildAgg z [] lines with
  | mk agg eo =>
    cases eo with
    | none =>
      obtain ⟨tl, h⟩ := emitAll_grows dflt agg z
      exact ⟨tl, by simp [populate_normal, hb, h]⟩
    | some e => exact ⟨[], by simp [populate_normal, hb]⟩

/-- C10: both populate paths only ever touch the zone sink through its
add-record operation, so every record present in the zone before the call is
still present, unmodified and in its original position, afterwards - the
added records follow it - whether the call completes or aborts with an
error; in particular the record count never decreases. -/
theorem C10_records_only_grow (dflt : Nat) (z : Zone) (lines : List (List Char)) :
    ∃ tl, ((populate dflt z lines).1).records = z.records ++ tl := by
  unfold populate
  by_cases hz : endsWithL z.name (chars "in-addr.arpa.") = true
  · rw [if_pos hz]
    exact arpaGo_grows dflt lines ⟨z, none, []⟩
  · rw [if_neg hz]
    exact populate_normal_grows dflt z lines

theorem acceptFCore_iff (Z s : List Char) :
    acceptFCore Z s = true ↔
      ∃ pre tl, s = pre ++ tl ∧ wildEq Z tl = true ∧
        (pre = [] ∨ ∃ p0, pre = p0 ++ ['.'] ∧ p0 ≠ [] ∧ noNl p0 = true) := by
  simp only [acceptFCore, decide_eq_true_eq]
  constructor
  · rintro (⟨hlen, hw⟩ | ⟨hge, hdot, hw, hnl⟩)
    · exact ⟨[], s, rfl, hw, Or.inl rfl⟩
    · refine ⟨s.take (s.length - Z.length), s.drop (s.length - Z.length),
        (List.take_append_drop _ _).symm, hw, Or.inr ?_⟩
      refine ⟨s.take (s.length - Z.length - 1), ?_, ?_, hnl⟩
      · have hlt : s.length - Z.length - 1 < s.length := by omega
        have hsome : s.get? (s.length - Z.length - 1)
            = some (s.get ⟨s.length - Z.length - 1, hlt⟩) := List.get?_eq_get hlt
        have hc : s.get ⟨s.length - Z.length - 1, hlt⟩ = '.' := by
          have hd := List.getD_eq_get? s (s.length - Z.length - 1) '\n'
          rw [hsome] at hd
          rw [hd] at hdot
          simpa using hdot
        have h1 : s.length - Z.length = (s.length - Z.length - 1) + 1 := by omega
        conv_lhs => rw [h1]
        rw [List.take_succ, ← List.get?_eq_getElem?, hsome, hc]
        rfl
      · intro hnil
        have hln := congrArg List.length hnil
        rw [List.length_take] at hln
        simp only [List.length_nil] at hln
        omega
  · rintro ⟨pre, tl, hs, hw, hcase | ⟨p0, hp0, hne, hnl⟩⟩
    · subst hcase
      simp only [List.nil_append] at hs
      subst hs
      exact Or.inl ⟨(wildEq_length hw).symm ▸ rfl, hw⟩
    · subst hp0
      subst hs
      have hlen := wildEq_length hw
      have hp : 1 ≤ p0.length := List.length_pos.mpr hne
      right
      refine ⟨?_, ?_, ?_, ?_⟩
      · simp only [List.length_append, List.length_cons, List.length_nil]
        omega
      · have hidx : ((p0 ++ ['.']) ++ tl).length - Z.length - 1 = p0.length := by
          simp only [List.length_append, List.length_cons, List.length_nil]
          omega
        rw [hidx, List.getD_eq_get?, List.append_assoc, List.singleton_append,
          List.get?_append_right (Nat.le_refl _)]
        simp
      · have hidx : ((p0 ++ ['.']) ++ tl).length - Z.length = (p0 ++ ['.']).length := by
          simp only [List.length_append, List.length_cons, List.length_nil]
          omega
        rw [hidx, List.drop_left]
        exact hw
      · have hidx : ((p0 ++ ['.']) ++ tl).length - Z.length - 1 = p0.length := by
          simp only [List.length_append, List.length_cons, List.length_nil]
          omega
        rw [hidx, List.append_assoc, List.singleton_append]
        rw [show p0.length = (p0).length from rfl, List.take_left]
        exact hnl

/-- C3 (amended): because `zone.name[:-1]` is pasted into the pattern without
escaping, every dot of the zone name is a regex wildcard.  The forward
matcher accepts a name exactly when, after discounting a single trailing
newline, the name either matches the zone-minus-dot pattern
position-by-position outright (the apex case: empty relative label, each
zone-name dot matching any non-newline character) or splits into a nonempty
newline-free label, a literal dot, and such a position-wise match; a
recognized forward line whose first field the matcher rejects is silently
skipped, producing no aggregation entry and no error; and for a name that
genuinely carries the zone suffix the (spec-modelled) label extraction
returns the label before the separating dot, the apex yielding the empty
label. -/
theorem C3_matcher_wildcard (Z s : List Char) :
    (reAccept Z s = true ↔
      ∃ pre tl, stripNl s = pre ++ tl ∧ wildEq Z tl = true ∧
        (pre = [] ∨ ∃ p0, pre = p0 ++ ['.'] ∧ p0 ≠ [] ∧ noNl p0 = true))
    ∧ (∀ (z : Zone) (agg : Agg) (c : Char) (raw : List Char) (t : RType),
        type_map c = some (some t) →
        reAccept z.name.dropLast ((parseFields raw).headD []) = false →
        stepF z agg (c :: raw) = (agg, none))
    ∧ (∀ (Zc pre : List Char),
        hostname_from_fqdn (Zc ++ ['.']) (pre ++ '.' :: Zc) = pre
        ∧ hostname_from_fqdn (Zc ++ ['.']) Zc = []) := by
  refine ⟨acceptFCore_iff Z (stripNl s), ?_, ?_⟩
  · intro z agg c raw t htm h0
    simp only [List.headD_eq_head?_getD] at h0
    simp [stepF, htm, h0]
  · intro Zc pre
    constructor
    · show (pre ++ '.' :: Zc).take ((pre ++ '.' :: Zc).length - (Zc ++ ['.']).length) = pre
      have hidx : (pre ++ '.' :: Zc).length - (Zc ++ ['.']).length = pre.length := by
        simp only [List.length_append, List.length_cons, List.length_nil]
        omega
      rw [hidx, List.take_left]
    · show Zc.take (Zc.length - (Zc ++ ['.']).length) = []
      have hidx : Zc.length - (Zc ++ ['.']).length = 0 := by
        simp only [List.length_append, List.length_cons, List.length_nil]
        omega
      rw [hidx, List.take_zero]

/-- Witness for C3 at a concrete input: a recognized `=` line whose first
field `foo.other.org` fails the matcher for zone `example.com.` is skipped
without error. -/
theorem C3_matcher_wildcard_wit :
    stepF ⟨chars "example.com.", [], []⟩ [] ('=' :: chars "foo.other.org") = ([], none) :=
  (C3_matcher_wildcard [] []).2.1 ⟨chars "example.com.", [], []⟩ [] '='
    (chars "foo.other.org") .A rfl (by decide)

/-- C3 (counterexample): with zone `example.com.` the forward matcher
accepts `foo.exampleXcom`, although that name neither equals `example.com`
nor ends with `.example.com` - the unescaped dot of the interpolated zone
name matches the `X` - so acceptance is not equivalent to the strict-suffix
condition the claim states. -/
theorem C3_wildcard_dot_cex :
    reAccept (chars "example.com") (chars "foo.exampleXcom") = true
    ∧ ¬(chars "foo.exampleXcom" = chars "example.com"
        ∨ endsWithL (chars "foo.exampleXcom") ('.' :: chars "example.com") = true) := by
  decide

end TinyDns
